import Mathlib

/-
  Verification of the color-quantization core of pdf_noteshrink.py.

  The embedding models the numpy code over lists of natural-number RGB triples;
  floating-point saturation/value arithmetic is modelled over the rationals
  (the quantities involved are exact small fractions, so the comparisons the
  code performs agree with this model), and machine integers are naturals with
  an explicit reduction modulo 256 where the code stores into uint8 arrays.
-/

namespace Noteshrink

/-- An RGB triple; each channel of a valid pixel lies in 0..255. -/
abbrev RGB : Type := ℕ × ℕ × ℕ

/-- An RGB triple over the rationals, as used for float32 cluster centers. -/
abbrev Q3 : Type := ℚ × ℚ × ℚ

/-- Default pixel used with List.getD. -/
def d0 : RGB := (0, 0, 0)

/-- quantize, per channel: reduces the number of bits per channel and recenters
on the bucket midpoint (source lines 21-30). -/
def quantize (x : ℕ) (bits : ℕ) : ℕ :=
  let shift := 8 - bits
  let halfbin := (1 <<< shift) >>> 1
  ((x >>> shift) <<< shift) + halfbin

/-- quantize applied to the three channels of one pixel. -/
def quantizeRGB (c : RGB) (bits : ℕ) : RGB :=
  (quantize c.1 bits, quantize c.2.1 bits, quantize c.2.2 bits)

/-- pack_rgb on one triple: R shifted left 16, or G shifted left 8, or B
(source line 47); the numpy version applies this elementwise after reshaping
to a flat list of triples. -/
def pack_rgb (c : RGB) : ℕ :=
  (c.1 <<< 16) ||| (c.2.1 <<< 8) ||| c.2.2

/-- unpack_rgb on one packed integer (source lines 65-67). -/
def unpack_rgb (p : ℕ) : RGB :=
  ((p >>> 16) &&& 0xff, (p >>> 8) &&& 0xff, p &&& 0xff)

/-- Helper: pack_rgb is plain base-256 positional arithmetic on in-range triples. -/
theorem pack_rgb_eq (r g b : ℕ) (hg : g < 256) (hb : b < 256) :
    pack_rgb (r, g, b) = 65536 * r + 256 * g + b := by
  have h1 : g * 2 ^ 8 < 2 ^ 16 := by
    norm_num
    omega
  have hb2 : b < 2 ^ 8 := by simpa using hb
  show (r <<< 16 ||| g <<< 8) ||| b = 65536 * r + 256 * g + b
  rw [Nat.shiftLeft_eq, Nat.shiftLeft_eq]
  have e1 : r * 2 ^ 16 ||| g * 2 ^ 8 = 2 ^ 16 * r + g * 2 ^ 8 := by
    rw [Nat.mul_comm r]
    exact (Nat.mul_add_lt_is_or h1 r).symm
  rw [e1]
  have e2 : 2 ^ 16 * r + g * 2 ^ 8 = 2 ^ 8 * (2 ^ 8 * r + g) := by ring
  rw [e2, ← Nat.mul_add_lt_is_or hb2 (2 ^ 8 * r + g)]
  ring

/-- Helper: unpack_rgb inverts pack_rgb on triples with 8-bit channels. -/
theorem unpack_pack (r g b : ℕ) (hr : r < 256) (hg : g < 256) (hb : b < 256) :
    unpack_rgb (pack_rgb (r, g, b)) = (r, g, b) := by
  rw [pack_rgb_eq r g b hg hb]
  show ((_ >>> 16) &&& 0xff, (_ >>> 8) &&& 0xff, _ &&& 0xff) = (r, g, b)
  have h255 : (0xff : ℕ) = 2 ^ 8 - 1 := by norm_num
  rw [h255, Nat.shiftRight_eq_div_pow, Nat.shiftRight_eq_div_pow,
    Nat.and_pow_two_sub_one_eq_mod, Nat.and_pow_two_sub_one_eq_mod,
    Nat.and_pow_two_sub_one_eq_mod]
  refine Prod.ext ?_ (Prod.ext ?_ ?_) <;> simp only [] <;> omega

/-- Claim C2: for every RGB triple with each channel in 0..255, unpacking the
packed integer returns the original triple; the same holds elementwise over a
batch of triples (the numpy functions reshape any batch to a flat list of
triples and operate elementwise). -/
theorem C2_pack_unpack_roundtrip (r g b : ℕ)
    (hr : r < 256) (hg : g < 256) (hb : b < 256) :
    unpack_rgb (pack_rgb (r, g, b)) = (r, g, b) ∧
    ∀ l : List RGB, (∀ t ∈ l, t.1 < 256 ∧ t.2.1 < 256 ∧ t.2.2 < 256) →
      l.map (fun t => unpack_rgb (pack_rgb t)) = l := by
  refine ⟨unpack_pack r g b hr hg hb, ?_⟩
  intro l hl
  induction l with
  | nil => rfl
  | cons t ts ih =>
    have ht := hl t (List.mem_cons_self t ts)
    have hts : ∀ u ∈ ts, u.1 < 256 ∧ u.2.1 < 256 ∧ u.2.2 < 256 := by
      intro u hu; exact hl u (List.mem_cons_of_mem t hu)
    simp only [List.map_cons, ih hts, List.cons.injEq, and_true]
    obtain ⟨t1, t2, t3⟩ := t
    exact unpack_pack t1 t2 t3 ht.1 ht.2.1 ht.2.2

/-- Claim C2 witness at the triple (12, 34, 56). -/
theorem C2_pack_unpack_roundtrip_witness :
    unpack_rgb (pack_rgb (12, 34, 56)) = (12, 34, 56) :=
  (C2_pack_unpack_roundtrip 12 34 56 (by decide) (by decide) (by decide)).1

set_option maxRecDepth 20000 in
/-- Claim C6: for every bit depth b in 1..8 and channel value x in 0..255, the
bucket midpoint produced by quantize is a fixed point of quantize at the same
bit depth. -/
theorem C6_quantize_idempotent (b x : ℕ) (hb1 : 1 ≤ b) (hb2 : b ≤ 8) (hx : x ≤ 255) :
    quantize (quantize x b) b = quantize x b := by
  have key : ∀ c < 8, ∀ y < 256, quantize (quantize y (c + 1)) (c + 1) = quantize y (c + 1) := by
    decide
  obtain ⟨c, rfl⟩ : ∃ c, b = c + 1 := ⟨b - 1, by omega⟩
  exact key c (by omega) x (by omega)

/-- Claim C6 witness at bit depth 6 and value 77. -/
theorem C6_quantize_idempotent_witness :
    quantize (quantize 77 6) 6 = quantize 77 6 :=
  C6_quantize_idempotent 6 77 (by decide) (by decide) (by decide)

/-- rgb_to_sv on one pixel (source lines 90-105): value is the max channel over
255, saturation is delta over the max channel, with the where-guard making the
saturation 0 when the max channel is 0. Returns (saturation, value) in the
order of the source. -/
def rgb_to_sv (c : RGB) : ℚ × ℚ :=
  let cmax : ℚ := max (c.1 : ℚ) (max (c.2.1 : ℚ) (c.2.2 : ℚ))
  let cmin : ℚ := min (c.1 : ℚ) (min (c.2.1 : ℚ) (c.2.2 : ℚ))
  let delta : ℚ := cmax - cmin
  (if cmax = 0 then 0 else delta / cmax, cmax / 255)

/-- get_fg_mask on one pixel (source lines 122-130): foreground when the value
difference reaches value_threshold or the saturation difference reaches
sat_threshold; the numpy version maps this over a batch of pixels. -/
def get_fg_mask (bg : RGB) (px : RGB) (vt st : ℚ) : Bool :=
  let sv_bg := rgb_to_sv bg
  let sv := rgb_to_sv px
  let s_diff := |sv_bg.1 - sv.1|
  let v_diff := |sv_bg.2 - sv.2|
  decide (vt ≤ v_diff) || decide (st ≤ s_diff)

/-- Claim C4: a pixel is foreground iff its value differs from the background
value by at least value_threshold OR its saturation differs from the background
saturation by at least sat_threshold; consequently, with positive thresholds as
required of every configuration, the mask is all false when every sample pixel
equals the background color exactly. -/
theorem C4_fg_classifier (bg px : RGB) (vt st : ℚ) (hvt : 0 < vt) (hst : 0 < st) :
    (get_fg_mask bg px vt st = true ↔
      vt ≤ |(rgb_to_sv px).2 - (rgb_to_sv bg).2| ∨
      st ≤ |(rgb_to_sv px).1 - (rgb_to_sv bg).1|) ∧
    ∀ samples : List RGB, (∀ p ∈ samples, p = bg) →
      samples.map (fun p => get_fg_mask bg p vt st) = List.replicate samples.length false := by
  constructor
  · unfold get_fg_mask
    simp only [Bool.or_eq_true, decide_eq_true_eq]
    rw [abs_sub_comm ((rgb_to_sv bg).2), abs_sub_comm ((rgb_to_sv bg).1)]
  · intro samples hsamp
    induction samples with
    | nil => rfl
    | cons a as ih =>
      have ha : a = bg := hsamp a (List.mem_cons_self a as)
      have has : ∀ p ∈ as, p = bg := fun p hp => hsamp p (List.mem_cons_of_mem a hp)
      simp only [List.map_cons, List.length_cons, List.replicate_succ, ih has,
        List.cons.injEq, and_true]
      subst ha
      simp [get_fg_mask, sub_self, abs_zero, hvt.not_le, hst.not_le]

/-- Claim C4 witness: background (100,100,100), pixel (0,0,0), thresholds 1/4
and 1/5. -/
theorem C4_fg_classifier_witness :
    (get_fg_mask (100, 100, 100) (0, 0, 0) (1/4) (1/5) = true ↔
      (1/4 : ℚ) ≤ |(rgb_to_sv (0, 0, 0)).2 - (rgb_to_sv (100, 100, 100)).2| ∨
      (1/5 : ℚ) ≤ |(rgb_to_sv (0, 0, 0)).1 - (rgb_to_sv (100, 100, 100)).1|) ∧
    ∀ samples : List RGB, (∀ p ∈ samples, p = (100, 100, 100)) →
      samples.map (fun p => get_fg_mask (100, 100, 100) p (1/4) (1/5)) =
        List.replicate samples.length false :=
  C4_fg_classifier (100, 100, 100) (0, 0, 0) (1/4) (1/5) (by norm_num) (by norm_num)

/-- Ascending insertion used to model the sorted output of np.unique. -/
def insertSorted (x : ℕ) : List ℕ → List ℕ
  | [] => [x]
  | y :: ys => if x ≤ y then x :: y :: ys else y :: insertSorted x ys

/-- Ascending sort used to model the sorted output of np.unique. -/
def sortNat (l : List ℕ) : List ℕ := l.foldr insertSorted []

/-- np.unique on the packed keys: the distinct values in ascending order. -/
def npUnique (l : List ℕ) : List ℕ := sortNat l.dedup

/-- One step of counts.argmax over the unique keys: keep the earlier key unless
a strictly larger count appears. -/
def argmaxStep (l : List ℕ) (best cur : ℕ) : ℕ :=
  if l.count best < l.count cur then cur else best

/-- The unique / return_counts / argmax composite of get_bg_color: the most
frequent value of the list, earliest in sorted order on ties; none on an empty
list, where counts.argmax raises a ValueError. -/
def modeOfPacked (l : List ℕ) : Option ℕ :=
  match npUnique l with
  | [] => none
  | k :: ks => some (ks.foldl (argmaxStep l) k)

/-- get_bg_color (source lines 76-86): quantize every pixel, pack to integer
keys, take the most frequent key and unpack it. -/
def get_bg_color (image : List RGB) (bits : ℕ) : Option RGB :=
  (modeOfPacked ((image.map (fun c => quantizeRGB c bits)).map pack_rgb)).map unpack_rgb

/-- Membership in insertSorted. -/
theorem mem_insertSorted (a x : ℕ) (l : List ℕ) :
    a ∈ insertSorted x l ↔ a = x ∨ a ∈ l := by
  induction l with
  | nil => simp [insertSorted]
  | cons y ys ih =>
    unfold insertSorted
    split
    · simp [List.mem_cons]
    · simp only [List.mem_cons, ih]
      tauto

/-- Membership in sortNat. -/
theorem mem_sortNat (a : ℕ) (l : List ℕ) : a ∈ sortNat l ↔ a ∈ l := by
  induction l with
  | nil => simp [sortNat]
  | cons y ys ih =>
    show a ∈ insertSorted y (sortNat ys) ↔ _
    rw [mem_insertSorted, ih, List.mem_cons]

/-- Two distinct values cannot jointly occur more often than the length. -/
theorem count_add_count_le_length {α : Type} [DecidableEq α] (l : List α) (a b : α)
    (hab : a ≠ b) : l.count a + l.count b ≤ l.length := by
  induction l with
  | nil => simp
  | cons c cs ih =>
    rw [List.count_cons, List.count_cons, List.length_cons]
    by_cases hca : c = a <;> by_cases hcb : c = b
    · exact absurd (hca.symm.trans hcb) hab
    · rw [if_pos (beq_iff_eq.mpr hca), if_neg (by simp [hcb])]
      omega
    · rw [if_neg (by simp [hca]), if_pos (beq_iff_eq.mpr hcb)]
      omega
    · rw [if_neg (by simp [hca]), if_neg (by simp [hcb])]
      omega

/-- Counting is monotone under mapping, for the ambient boolean equality. -/
theorem count_le_count_map' {α β : Type} [BEq α] [LawfulBEq α] [BEq β] [LawfulBEq β]
    (l : List α) (f : α → β) (x : α) : l.count x ≤ (l.map f).count (f x) := by
  induction l with
  | nil => simp
  | cons c cs ih =>
    rw [List.map_cons, List.count_cons, List.count_cons]
    by_cases h : c = x
    · subst h
      rw [if_pos (by simp), if_pos (by simp)]
      omega
    · rw [if_neg (by simp [h])]
      split <;> omega

/-- The fold implementing counts.argmax returns an element of the key list
whose count is maximal among the keys. -/
theorem foldl_argmax_spec (l : List ℕ) :
    ∀ (ks : List ℕ) (k : ℕ),
      (ks.foldl (argmaxStep l) k ∈ k :: ks) ∧
      ∀ x ∈ k :: ks, l.count x ≤ l.count (ks.foldl (argmaxStep l) k) := by
  intro ks
  induction ks with
  | nil =>
    intro k
    refine ⟨List.mem_cons_self k [], ?_⟩
    intro x hx
    rcases List.mem_cons.mp hx with rfl | h
    · exact le_refl _
    · simp at h
  | cons c cs ih =>
    intro k
    have hstep : argmaxStep l k c = k ∨ argmaxStep l k c = c := by
      unfold argmaxStep; split <;> simp
    have hk : l.count k ≤ l.count (argmaxStep l k c) := by
      unfold argmaxStep; split <;> omega
    have hc : l.count c ≤ l.count (argmaxStep l k c) := by
      unfold argmaxStep; split <;> omega
    obtain ⟨ihmem, ihmax⟩ := ih (argmaxStep l k c)
    constructor
    · simp only [List.foldl_cons]
      rcases List.mem_cons.mp ihmem with heq | hmem
      · rcases hstep with h2 | h2 <;> rw [heq, h2]
        · exact List.mem_cons_self _ _
        · exact List.mem_cons_of_mem _ (List.mem_cons_self _ _)
      · exact List.mem_cons_of_mem _ (List.mem_cons_of_mem _ hmem)
    · intro x hx
      simp only [List.foldl_cons]
      rcases List.mem_cons.mp hx with rfl | hx2
      · exact le_trans hk (ihmax _ (List.mem_cons_self _ _))
      rcases List.mem_cons.mp hx2 with rfl | hx3
      · exact le_trans hc (ihmax _ (List.mem_cons_self _ _))
      · exact ihmax x (List.mem_cons_of_mem _ hx3)

/-- A strict-majority value is the mode. -/
theorem modeOfPacked_majority (l : List ℕ) (k0 : ℕ)
    (hmaj : l.length < 2 * l.count k0) : modeOfPacked l = some k0 := by
  have hk0l : k0 ∈ l := by
    have hlen := l.count_le_length k0
    have : 0 < l.count k0 := by omega
    exact List.count_pos_iff.mp this
  have hk0u : k0 ∈ npUnique l := by
    unfold npUnique
    rw [mem_sortNat]
    exact List.mem_dedup.mpr hk0l
  rcases hu : npUnique l with _ | ⟨k, ks⟩
  · rw [hu] at hk0u; simp at hk0u
  · have hred : modeOfPacked l = some (ks.foldl (argmaxStep l) k) := by
      unfold modeOfPacked
      rw [hu]
    obtain ⟨hmem, hmax⟩ := foldl_argmax_spec l ks k
    have hrl : ks.foldl (argmaxStep l) k ∈ l := by
      have hh : ks.foldl (argmaxStep l) k ∈ npUnique l := by rw [hu]; exact hmem
      unfold npUnique at hh
      rw [mem_sortNat] at hh
      exact List.mem_dedup.mp hh
    have hcnt : l.count k0 ≤ l.count (ks.foldl (argmaxStep l) k) := by
      refine hmax k0 ?_
      rw [← hu]; exact hk0u
    by_cases hrk : ks.foldl (argmaxStep l) k = k0
    · rw [hred, hrk]
    · exfalso
      have := count_add_count_le_length l (ks.foldl (argmaxStep l) k) k0 hrk
      omega

/-- quantize at 6 bits keeps an 8-bit channel within 8 bits. -/
theorem quantize_lt_256 (x : ℕ) (hx : x < 256) : quantize x 6 < 256 := by
  show ((x >>> (8 - 6)) <<< (8 - 6)) + ((1 <<< (8 - 6)) >>> 1) < 256
  norm_num [Nat.shiftLeft_eq, Nat.shiftRight_eq_div_pow]
  omega

/-- The four-pixel image refuting claim C5 as stated: three of the four pixels
share the exact color (0,0,0), yet the detected background is the quantized
bucket midpoint (2,2,2), not (0,0,0). -/
def img4 : List RGB := [(0, 0, 0), (0, 0, 0), (0, 0, 0), (255, 255, 255)]

/-- Claim C5 counterexample: in img4 more than half the pixels share the exact
color (0,0,0), but get_bg_color with 6 bits per channel returns (2,2,2), the
midpoint of the quantization bucket of (0,0,0), not (0,0,0) itself. -/
theorem C5_counterexample :
    img4.length < 2 * img4.count (0, 0, 0) ∧
    get_bg_color img4 6 = some (2, 2, 2) ∧
    get_bg_color img4 6 ≠ some ((0 : ℕ), (0 : ℕ), (0 : ℕ)) := by
  decide

/-- Claim C5 amended: if more than half the pixels of an image share one exact
8-bit color C, get_bg_color at the default 6 bits per channel returns the
quantized bucket midpoint of C (which equals C exactly when C is already a
bucket midpoint). -/
theorem C5_bg_detect_majority (img : List RGB) (C : RGB)
    (hmaj : img.length < 2 * img.count C)
    (h1 : C.1 < 256) (h2 : C.2.1 < 256) (h3 : C.2.2 < 256) :
    get_bg_color img 6 = some (quantizeRGB C 6) := by
  unfold get_bg_color
  have hcount : img.count C ≤
      ((img.map (fun c => quantizeRGB c 6)).map pack_rgb).count (pack_rgb (quantizeRGB C 6)) := by
    calc img.count C ≤ (img.map (fun c => quantizeRGB c 6)).count (quantizeRGB C 6) :=
          count_le_count_map' img (fun c => quantizeRGB c 6) C
      _ ≤ _ := count_le_count_map' _ pack_rgb _
  have hlen : ((img.map (fun c => quantizeRGB c 6)).map pack_rgb).length = img.length := by
    simp
  have hmaj2 : ((img.map (fun c => quantizeRGB c 6)).map pack_rgb).length <
      2 * ((img.map (fun c => quantizeRGB c 6)).map pack_rgb).count (pack_rgb (quantizeRGB C 6)) := by
    omega
  rw [modeOfPacked_majority _ _ hmaj2]
  simp only [Option.map_some']
  obtain ⟨r, g, b⟩ := C
  exact congrArg some
    (unpack_pack _ _ _ (quantize_lt_256 r h1) (quantize_lt_256 g h2) (quantize_lt_256 b h3))

/-- Claim C5 amended witness: on img4 the detected background is the quantized
midpoint of (0,0,0). -/
theorem C5_bg_detect_majority_witness :
    get_bg_color img4 6 = some (quantizeRGB (0, 0, 0) 6) :=
  C5_bg_detect_majority img4 (0, 0, 0) (by decide) (by decide) (by decide) (by decide)

/-- Squared Euclidean distance between two RGB triples, the quantity scipy vq
minimizes (on these integer inputs its float arithmetic is exact). -/
def sqDist (a b : RGB) : ℕ :=
  ((a.1 : ℤ) - b.1).natAbs ^ 2 + ((a.2.1 : ℤ) - b.2.1).natAbs ^ 2 +
    ((a.2.2 : ℤ) - b.2.2).natAbs ^ 2

/-- Linear scan underlying the vq argmin: index of the first entry of cands
(counting from i) strictly closer than the best distance bd seen so far, whose
index is bi. -/
def vqGo (px : RGB) : List RGB → ℕ → ℕ → ℕ → ℕ
  | [], _, bi, _ => bi
  | c :: cs, i, bi, bd =>
    if sqDist px c < bd then vqGo px cs (i + 1) i (sqDist px c)
    else vqGo px cs (i + 1) bi bd

/-- scipy.cluster.vq.vq on a single observation: the index of the nearest code
book entry, the earliest one on ties. -/
def vq1 (px : RGB) (palette : List RGB) : ℕ :=
  match palette with
  | [] => 0
  | c :: cs => vqGo px cs 1 0 (sqDist px c)

/-- apply_palette (source lines 155-169): re-classify every pixel against
palette index 0; background pixels keep the label 0 the zeros array starts
with, foreground pixels get their vq index against the full palette. The
labels array has dtype uint8, so the stored label is the vq index reduced
modulo 256; none models the IndexError raised by palette[0] on an empty
palette. -/
def apply_palette (img : List (List RGB)) (palette : List RGB) (vt st : ℚ) :
    Option (List (List ℕ)) :=
  match palette with
  | [] => none
  | bg :: _ =>
    some (img.map (fun row => row.map (fun px =>
      if get_fg_mask bg px vt st then (vq1 px palette) % 256 else 0)))

/-- Invariant of the vq scan: if bd is the distance to entry bi and is minimal
among the first i entries, the scan over the remaining entries returns a valid
index minimizing the distance over the whole list. -/
theorem vqGo_spec (px : RGB) (P : List RGB) :
    ∀ (cands : List RGB) (i bi bd : ℕ),
      P.drop i = cands → bi < P.length → bd = sqDist px (P.getD bi d0) →
      (∀ j, j < i → bd ≤ sqDist px (P.getD j d0)) →
      vqGo px cands i bi bd < P.length ∧
      ∀ j, j < P.length →
        sqDist px (P.getD (vqGo px cands i bi bd) d0) ≤ sqDist px (P.getD j d0) := by
  intro cands
  induction cands with
  | nil =>
    intro i bi bd hdrop hbi hbd hinv
    have hle : P.length ≤ i := List.drop_eq_nil_iff.mp hdrop
    refine ⟨hbi, ?_⟩
    intro j hj
    have hlt : j < i := lt_of_lt_of_le hj hle
    have := hinv j hlt
    rw [hbd] at this
    exact this
  | cons c cs ih =>
    intro i bi bd hdrop hbi hbd hinv
    have hi : i < P.length := by
      by_contra hcon
      rw [List.drop_eq_nil_of_le (Nat.le_of_not_lt hcon)] at hdrop
      exact List.noConfusion hdrop
    have hPi : c :: cs = P.getD i d0 :: P.drop (i + 1) := by
      rw [← hdrop, List.drop_eq_getElem_cons hi]
      congr 1
      rw [List.getD_eq_getElem?_getD, List.getElem?_eq_getElem hi]
      rfl
    have hc : P.getD i d0 = c := by
      injection hPi with h1 h2
      exact h1.symm
    have hcs : P.drop (i + 1) = cs := by
      injection hPi with h1 h2
      exact h2.symm
    simp only [vqGo]
    by_cases hlt : sqDist px c < bd
    · rw [if_pos hlt]
      refine ih (i + 1) i (sqDist px c) hcs hi (by rw [hc]) ?_
      intro j hj
      rcases Nat.lt_succ_iff_lt_or_eq.mp hj with h | rfl
      · exact le_trans (le_of_lt hlt) (hinv j h)
      · rw [hc]
    · rw [if_neg hlt]
      refine ih (i + 1) bi bd hcs hbi hbd ?_
      intro j hj
      rcases Nat.lt_succ_iff_lt_or_eq.mp hj with h | rfl
      · exact hinv j h
      · rw [hc]
        exact Nat.le_of_not_lt hlt

/-- The vq index is a valid palette index and minimizes the squared distance
over the whole palette. -/
theorem vq1_spec (px : RGB) (palette : List RGB) (hne : palette ≠ []) :
    vq1 px palette < palette.length ∧
    ∀ j, j < palette.length →
      sqDist px (palette.getD (vq1 px palette) d0) ≤ sqDist px (palette.getD j d0) := by
  rcases palette with _ | ⟨c, cs⟩
  · exact absurd rfl hne
  · show vqGo px cs 1 0 (sqDist px c) < (c :: cs).length ∧ _
    refine vqGo_spec px (c :: cs) cs 1 0 (sqDist px c) rfl (by simp) rfl ?_
    intro j hj
    have hj0 : j = 0 := by omega
    subst hj0
    exact le_refl _

/-- getD through map, below the length. -/
theorem getD_map_of_lt {α β : Type} (f : α → β) (l : List α) (i : ℕ) (d : α)
    (d2 : β) (h : i < l.length) : (l.map f).getD i d2 = f (l.getD i d) := by
  have h2 : i < (l.map f).length := by simpa using h
  rw [List.getD_eq_getElem?_getD, List.getD_eq_getElem?_getD,
    List.getElem?_eq_getElem h2, List.getElem?_eq_getElem h, List.getElem_map]
  rfl

/-- The 257-entry palette refuting the nearest-index part of claim C1 as
stated: index 0 is white (the background reference), indices 1..255 are all
(200,200,200), and index 256 is black. -/
def pal257 : List RGB :=
  ((255, 255, 255) : RGB) :: (List.replicate 255 ((200, 200, 200) : RGB) ++ [((0, 0, 0) : RGB)])

set_option maxRecDepth 100000 in
/-- Claim C1 counterexample: with the 257-entry palette pal257 the black pixel
is classified foreground and its unique nearest palette entry sits at index 256
(it is the only entry equal to the pixel, at squared distance 0), yet
apply_palette stores label 0, because the uint8 labels array wraps 256 to 0;
so a foreground pixel does not always receive the index of the nearest entry. -/
theorem C1_counterexample :
    pal257.length = 257 ∧
    get_fg_mask (255, 255, 255) (0, 0, 0) (1/4) (1/5) = true ∧
    pal257.getD 256 d0 = (0, 0, 0) ∧
    pal257.indexOf ((0, 0, 0) : RGB) = 256 ∧
    apply_palette [[(0, 0, 0)]] pal257 (1/4) (1/5) = some [[0]] ∧
    (0 : ℕ) ≠ 256 := by
  have hm : get_fg_mask (255, 255, 255) (0, 0, 0) (1/4) (1/5) = true := by
    norm_num [get_fg_mask, rgb_to_sv]
  have hv : vq1 ((0, 0, 0) : RGB) pal257 = 256 := by decide
  refine ⟨by decide, hm, by decide, by decide, ?_, by decide⟩
  have e1 : apply_palette [[(0, 0, 0)]] pal257 (1/4) (1/5) =
      some [[if get_fg_mask (255, 255, 255) (0, 0, 0) (1/4) (1/5) then
        (vq1 ((0, 0, 0) : RGB) pal257) % 256 else 0]] := rfl
  rw [e1, hm, if_pos rfl, hv]

/-- Claim C1 amended: for every image and every non-empty palette of at most
256 entries (labels are stored as uint8, so a longer palette has its vq
indices reduced modulo 256), apply_palette returns a label map of the same
spatial shape with every value below the palette length; background-classified
pixels receive label 0, and foreground-classified pixels receive the vq index
of the palette entry nearest by squared Euclidean distance over the full
palette, index 0 included. -/
theorem C1_apply_palette (img : List (List RGB)) (palette : List RGB) (vt st : ℚ)
    (hne : palette ≠ []) (hlen : palette.length ≤ 256) :
    ∃ labels, apply_palette img palette vt st = some labels ∧
      labels.map List.length = img.map List.length ∧
      (∀ row ∈ labels, ∀ v ∈ row, v < palette.length) ∧
      (∀ i j, i < img.length → j < (img.getD i []).length →
        (get_fg_mask (palette.getD 0 d0) ((img.getD i []).getD j d0) vt st = false →
          (labels.getD i []).getD j 0 = 0) ∧
        (get_fg_mask (palette.getD 0 d0) ((img.getD i []).getD j d0) vt st = true →
          (labels.getD i []).getD j 0 = vq1 ((img.getD i []).getD j d0) palette ∧
          (labels.getD i []).getD j 0 < palette.length ∧
          ∀ k, k < palette.length →
            sqDist ((img.getD i []).getD j d0)
                (palette.getD ((labels.getD i []).getD j 0) d0) ≤
              sqDist ((img.getD i []).getD j d0) (palette.getD k d0))) := by
  rcases hq : palette with _ | ⟨bg, rest⟩
  · exact absurd hq hne
  rw [← hq]
  refine ⟨img.map (List.map (fun px =>
    if get_fg_mask bg px vt st then (vq1 px palette) % 256 else 0)), ?_, ?_, ?_, ?_⟩
  · rw [hq]
    rfl
  · rw [List.map_map]
    apply List.map_congr_left
    intro r hr
    simp
  · intro row hrow v hv
    rw [List.mem_map] at hrow
    obtain ⟨r, hrmem, hrEq⟩ := hrow
    rw [← hrEq, List.mem_map] at hv
    obtain ⟨px, hpxmem, hpxEq⟩ := hv
    rw [← hpxEq]
    split
    · have hvq := (vq1_spec px palette (by rw [hq]; exact List.cons_ne_nil bg rest)).1
      exact lt_of_le_of_lt (Nat.mod_le _ _) hvq
    · rw [hq]
      simp
  · intro i j hi hj
    have hbg0 : palette.getD 0 d0 = bg := by rw [hq]; rfl
    have hrow : (img.map (List.map (fun px =>
        if get_fg_mask bg px vt st then (vq1 px palette) % 256 else 0))).getD i [] =
        (img.getD i []).map (fun px =>
        if get_fg_mask bg px vt st then (vq1 px palette) % 256 else 0) :=
      getD_map_of_lt _ img i [] [] hi
    have hcell : ((img.getD i []).map (fun px =>
        if get_fg_mask bg px vt st then (vq1 px palette) % 256 else 0)).getD j 0 =
        (fun px => if get_fg_mask bg px vt st then (vq1 px palette) % 256 else 0)
          ((img.getD i []).getD j d0) :=
      getD_map_of_lt _ _ j d0 0 hj
    rw [hrow, hcell, hbg0]
    constructor
    · intro hmask
      simp only [hmask, if_false, Bool.false_eq_true]
    · intro hmask
      simp only [hmask, if_true]
      obtain ⟨hvlt, hvmin⟩ :=
        vq1_spec ((img.getD i []).getD j d0) palette (by rw [hq]; exact List.cons_ne_nil bg rest)
      have hmod : (vq1 ((img.getD i []).getD j d0) palette) % 256 =
          vq1 ((img.getD i []).getD j d0) palette :=
        Nat.mod_eq_of_lt (lt_of_lt_of_le hvlt hlen)
      rw [hmod]
      exact ⟨rfl, hvlt, hvmin⟩

/-- Claim C1 amended witness: a one-pixel black image against the palette
[white, dark gray]. -/
theorem C1_apply_palette_witness :
    ∃ labels,
      apply_palette [[(0, 0, 0)]] [(255, 255, 255), (10, 10, 10)] (1/4) (1/5) = some labels ∧
      labels.map List.length = [[((0, 0, 0) : RGB)]].map List.length ∧
      (∀ row ∈ labels, ∀ v ∈ row, v < ([(255, 255, 255), (10, 10, 10)] : List RGB).length) ∧
      (∀ i j, i < [[((0, 0, 0) : RGB)]].length →
          j < ([[((0, 0, 0) : RGB)]].getD i []).length →
        (get_fg_mask (([(255, 255, 255), (10, 10, 10)] : List RGB).getD 0 d0)
            (([[((0, 0, 0) : RGB)]].getD i []).getD j d0) (1/4) (1/5) = false →
          (labels.getD i []).getD j 0 = 0) ∧
        (get_fg_mask (([(255, 255, 255), (10, 10, 10)] : List RGB).getD 0 d0)
            (([[((0, 0, 0) : RGB)]].getD i []).getD j d0) (1/4) (1/5) = true →
          (labels.getD i []).getD j 0 =
            vq1 (([[((0, 0, 0) : RGB)]].getD i []).getD j d0)
              [(255, 255, 255), (10, 10, 10)] ∧
          (labels.getD i []).getD j 0 < ([(255, 255, 255), (10, 10, 10)] : List RGB).length ∧
          ∀ k, k < ([(255, 255, 255), (10, 10, 10)] : List RGB).length →
            sqDist (([[((0, 0, 0) : RGB)]].getD i []).getD j d0)
                (([(255, 255, 255), (10, 10, 10)] : List RGB).getD
                  ((labels.getD i []).getD j 0) d0) ≤
              sqDist (([[((0, 0, 0) : RGB)]].getD i []).getD j d0)
                (([(255, 255, 255), (10, 10, 10)] : List RGB).getD k d0))) :=
  C1_apply_palette [[(0, 0, 0)]] [(255, 255, 255), (10, 10, 10)] (1/4) (1/5)
    (by decide) (by decide)

/-- The float32 view of one RGB triple, as fed to the clustering routine. -/
def toQ3 (c : RGB) : Q3 := ((c.1 : ℚ), (c.2.1 : ℚ), (c.2.2 : ℚ))

/-- numpy astype(np.uint8) on one float value: truncation toward zero followed
by the modular wrap of the 8-bit store; the code only applies it to
nonnegative in-range values, where it is the floor. -/
def u8_of_float (q : ℚ) : ℕ := (Int.toNat ⌊q⌋) % 256

/-- astype(np.uint8) on one float triple. -/
def u8_of_float3 (c : Q3) : RGB := (u8_of_float c.1, u8_of_float c.2.1, u8_of_float c.2.2)

/-- get_palette (source lines 134-151): detect the background from the
samples, classify the foreground, return the flat mid-gray fallback palette
when no sample is foreground, otherwise stack the background on the cluster
centers and cast to uint8. The clustering routine is passed as a parameter,
since scipy kmeans is an external randomized routine; none models an uncaught
exception (the argmax ValueError on an empty sample set, or a failure of the
clustering call). -/
def get_palette (km : List Q3 → ℕ → Option (List Q3)) (samples : List RGB)
    (num_colors : ℕ) (vt st : ℚ) : Option (List RGB) :=
  match get_bg_color samples 6 with
  | none => none
  | some bg =>
    if (samples.filter (fun p => get_fg_mask bg p vt st)).length = 0 then
      some ((List.replicate num_colors ((128, 128, 128) : RGB)).set 0 bg)
    else
      match km ((samples.filter (fun p => get_fg_mask bg p vt st)).map toQ3)
          (num_colors - 1) with
      | none => none
      | some centers => some ((toQ3 bg :: centers).map u8_of_float3)

/-- Models the external scipy.cluster.vq.kmeans call: its centroid
initialization draws k distinct observation indices, so it raises a ValueError
(modelled by none) when there are fewer observations than requested clusters;
otherwise it returns k centroids. The centroid values themselves are
abstracted as the first k observations; no claim settled here depends on
them. -/
def scipy_kmeans (obs : List Q3) (k : ℕ) : Option (List Q3) :=
  if obs.length < k then none else some (obs.take k)

/-- The number of samples sample_pixels draws (source line 113): int() of
num_pixels * sample_fraction; the product is nonnegative for the fractions in
scope, so the truncation toward zero is the floor. -/
def num_samples (num_pixels : ℕ) (sample_fraction : ℚ) : ℕ :=
  (⌊(num_pixels : ℚ) * sample_fraction⌋).toNat

/-- sample_pixels (source lines 109-118): the first num_samples entries of a
shuffled index list select the sample pixels; the random permutation idx is
passed as a parameter. -/
def sample_pixels (img : List RGB) (sample_fraction : ℚ) (idx : List ℕ) : List RGB :=
  (idx.take (num_samples img.length sample_fraction)).map (fun i => img.getD i d0)

/-- Channels of unpack_rgb are below 256. -/
theorem unpack_rgb_lt (p : ℕ) :
    (unpack_rgb p).1 < 256 ∧ (unpack_rgb p).2.1 < 256 ∧ (unpack_rgb p).2.2 < 256 := by
  refine ⟨?_, ?_, ?_⟩ <;> exact lt_of_le_of_lt Nat.and_le_right (by norm_num)

/-- The mode exists on every non-empty list. -/
theorem modeOfPacked_ne_none (l : List ℕ) (hne : l ≠ []) :
    ∃ m, modeOfPacked l = some m := by
  rcases l with _ | ⟨x, xs⟩
  · exact absurd rfl hne
  have hx : x ∈ npUnique (x :: xs) := by
    unfold npUnique
    rw [mem_sortNat]
    exact List.mem_dedup.mpr (List.mem_cons_self x xs)
  rcases hu : npUnique (x :: xs) with _ | ⟨k, ks⟩
  · rw [hu] at hx; simp at hx
  · refine ⟨ks.foldl (argmaxStep (x :: xs)) k, ?_⟩
    unfold modeOfPacked
    rw [hu]

/-- On a non-empty image, get_bg_color returns a color with 8-bit channels. -/
theorem get_bg_color_isSome (image : List RGB) (bits : ℕ) (hne : image ≠ []) :
    ∃ bg, get_bg_color image bits = some bg ∧
      bg.1 < 256 ∧ bg.2.1 < 256 ∧ bg.2.2 < 256 := by
  have hne2 : (image.map (fun c => quantizeRGB c bits)).map pack_rgb ≠ [] := by
    intro h
    rcases image with _ | ⟨p, ps⟩
    · exact hne rfl
    · simp at h
  obtain ⟨m, hm⟩ := modeOfPacked_ne_none _ hne2
  refine ⟨unpack_rgb m, ?_, (unpack_rgb_lt m).1, (unpack_rgb_lt m).2.1, (unpack_rgb_lt m).2.2⟩
  unfold get_bg_color
  rw [hm]
  rfl

/-- u8_of_float3 is the identity on 8-bit integer triples seen as floats. -/
theorem u8_of_float3_toQ3 (c : RGB) (h1 : c.1 < 256) (h2 : c.2.1 < 256)
    (h3 : c.2.2 < 256) : u8_of_float3 (toQ3 c) = c := by
  obtain ⟨r, g, b⟩ := c
  simp only [toQ3, u8_of_float3, u8_of_float, Int.floor_natCast, Int.toNat_natCast]
  simp only at h1 h2 h3
  rw [Nat.mod_eq_of_lt h1, Nat.mod_eq_of_lt h2, Nat.mod_eq_of_lt h3]

/-- Claim C3: for every non-empty sample set and num_colors at least 2, with
the clustering routine returning the requested number of centroids (the
behavior the spec ascribes to it), get_palette returns a palette of length
exactly num_colors on both the clustering path and the no-foreground fallback
path, and its index 0 is the background color freshly detected from the
samples. -/
theorem C3_get_palette_length (km : List Q3 → ℕ → Option (List Q3))
    (samples : List RGB) (num_colors : ℕ) (vt st : ℚ)
    (hs : samples ≠ []) (hn : 2 ≤ num_colors)
    (hkm : ∀ obs k, ∃ cs, km obs k = some cs ∧ cs.length = k) :
    ∃ p bg, get_bg_color samples 6 = some bg ∧
      get_palette km samples num_colors vt st = some p ∧
      p.length = num_colors ∧ p.getD 0 d0 = bg := by
  obtain ⟨bg, hbg, hb1, hb2, hb3⟩ := get_bg_color_isSome samples 6 hs
  obtain ⟨m, hm⟩ : ∃ m, num_colors = m + 1 := ⟨num_colors - 1, by omega⟩
  have hred : get_palette km samples num_colors vt st =
      (if (samples.filter (fun p => get_fg_mask bg p vt st)).length = 0 then
        some ((List.replicate num_colors ((128, 128, 128) : RGB)).set 0 bg)
      else
        match km ((samples.filter (fun p => get_fg_mask bg p vt st)).map toQ3)
            (num_colors - 1) with
        | none => none
        | some centers => some ((toQ3 bg :: centers).map u8_of_float3)) := by
    unfold get_palette
    rw [hbg]
  rw [hred]
  by_cases hfg : (samples.filter (fun p => get_fg_mask bg p vt st)).length = 0
  · rw [if_pos hfg]
    refine ⟨_, bg, hbg, rfl, ?_, ?_⟩
    · rw [List.length_set, List.length_replicate]
    · rw [hm, List.replicate_succ, List.set_cons_zero]
      rfl
  · rw [if_neg hfg]
    obtain ⟨cs, hcs, hlen⟩ :=
      hkm ((samples.filter (fun p => get_fg_mask bg p vt st)).map toQ3) (num_colors - 1)
    rw [hcs]
    refine ⟨_, bg, hbg, rfl, ?_, ?_⟩
    · rw [List.length_map, List.length_cons, hlen]
      omega
    · show u8_of_float3 (toQ3 bg) = bg
      exact u8_of_float3_toQ3 bg hb1 hb2 hb3

/-- Claim C3 witness: one black sample, num_colors 2, a clustering routine
returning the requested number of centroids. -/
theorem C3_get_palette_length_witness :
    ∃ p bg, get_bg_color [((0, 0, 0) : RGB)] 6 = some bg ∧
      get_palette (fun _ k => some (List.replicate k ((0, 0, 0) : Q3)))
        [((0, 0, 0) : RGB)] 2 (1/4) (1/5) = some p ∧
      p.length = 2 ∧ p.getD 0 d0 = bg :=
  C3_get_palette_length (fun _ k => some (List.replicate k ((0, 0, 0) : Q3)))
    [((0, 0, 0) : RGB)] 2 (1/4) (1/5) (by simp) (by omega)
    (fun obs k => ⟨List.replicate k ((0, 0, 0) : Q3), rfl, List.length_replicate k _⟩)

/-- The sample set exhibiting the unguarded clustering call of claim C7:
three white pixels and one black pixel. -/
def samples7 : List RGB := [(255, 255, 255), (255, 255, 255), (255, 255, 255), (0, 0, 0)]

/-- Claim C7 (code bug): on samples7 with default thresholds and num_colors 8
the code detects background (254,254,254), classifies exactly one sample as
foreground, and then requests 7 clusters from the clustering routine without
any guard: there is no capping of the cluster count and no
DegenerateClusteringError anywhere in the source, so the call fails inside
scipy (modelled by none: the ValueError raised by its initialization when
observations are fewer than clusters). -/
theorem C7_unguarded_kmeans :
    get_bg_color samples7 6 = some (254, 254, 254) ∧
    (samples7.filter (fun p => get_fg_mask (254, 254, 254) p (1/4) (1/5))).length = 1 ∧
    get_palette scipy_kmeans samples7 8 (1/4) (1/5) = none := by
  have hw : get_fg_mask (254, 254, 254) (255, 255, 255) (1/4) (1/5) = false := by
    norm_num [get_fg_mask, rgb_to_sv]
    rw [abs_of_nonneg (by norm_num : (0 : ℚ) ≤ 1/255)]
    norm_num
  have hblack : get_fg_mask (254, 254, 254) (0, 0, 0) (1/4) (1/5) = true := by
    norm_num [get_fg_mask, rgb_to_sv]
    rw [abs_of_nonneg (by norm_num : (0 : ℚ) ≤ 254/255)]
    norm_num
  have hbg : get_bg_color samples7 6 = some (254, 254, 254) := by decide
  have hfilter : samples7.filter (fun p => get_fg_mask (254, 254, 254) p (1/4) (1/5)) =
      [(0, 0, 0)] := by
    simp only [samples7, List.filter_cons, List.filter_nil, hw, hblack, if_true, if_false,
      Bool.false_eq_true, ite_false, ite_true]
  have hred : get_palette scipy_kmeans samples7 8 (1/4) (1/5) =
      (if (samples7.filter (fun p => get_fg_mask (254, 254, 254) p (1/4) (1/5))).length = 0
      then some ((List.replicate 8 ((128, 128, 128) : RGB)).set 0 (254, 254, 254))
      else
        match scipy_kmeans
            ((samples7.filter (fun p => get_fg_mask (254, 254, 254) p (1/4) (1/5))).map toQ3)
            (8 - 1) with
        | none => none
        | some centers => some ((toQ3 (254, 254, 254) :: centers).map u8_of_float3)) := by
    unfold get_palette
    rw [hbg]
  refine ⟨hbg, by rw [hfilter]; rfl, ?_⟩
  rw [hred, hfilter]
  norm_num [scipy_kmeans]

/-- The 2 by 2 all-white image of claim C8. -/
def img2x2 : List RGB := List.replicate 4 ((255, 255, 255) : RGB)

/-- Claim C8 (code bug): with the default sample_fraction 0.05 an image of 4
pixels yields int(4 * 0.05) = 0 samples; sample_pixels returns the empty
sample set and the pipeline proceeds into get_palette, where np.unique of the
empty set makes counts.argmax raise a numpy ValueError (modelled by none); no
InvalidConfigurationError exists anywhere in the source and nothing fails
fast at the sampling step. -/
theorem C8_zero_samples :
    num_samples img2x2.length (1/20) = 0 ∧
    sample_pixels img2x2 (1/20) [0, 1, 2, 3] = [] ∧
    get_bg_color (sample_pixels img2x2 (1/20) [0, 1, 2, 3]) 6 = none ∧
    get_palette scipy_kmeans (sample_pixels img2x2 (1/20) [0, 1, 2, 3]) 8 (1/4) (1/5) =
      none := by
  have h0 : num_samples img2x2.length (1/20) = 0 := by
    have hl : img2x2.length = 4 := by decide
    rw [hl]
    norm_num [num_samples]
  have h1 : sample_pixels img2x2 (1/20) [0, 1, 2, 3] = [] := by
    unfold sample_pixels
    rw [h0]
    rfl
  have h2 : get_bg_color ([] : List RGB) 6 = none := by decide
  refine ⟨h0, h1, by rw [h1]; exact h2, ?_⟩
  rw [h1]
  unfold get_palette
  rw [h2]

/-- The channel values of a palette in row-major order: the flattened view
whose global min and max the saturate step uses. -/
def palette_channels (palette : List RGB) : List ℕ :=
  palette.foldr (fun c acc => c.1 :: c.2.1 :: c.2.2 :: acc) []

/-- palette.min() over all channels; 0 on an empty palette (where numpy would
raise, a case no caller produces). -/
def pal_min (palette : List RGB) : ℕ :=
  match palette_channels palette with
  | [] => 0
  | c :: cs => cs.foldl min c

/-- palette.max() over all channels; 0 on an empty palette. -/
def pal_max (palette : List RGB) : ℕ :=
  match palette_channels palette with
  | [] => 0
  | c :: cs => cs.foldl max c

/-- One channel of the contrast stretch 255 * (x - pmin) / (pmax - pmin),
computed in float and stored back to uint8. -/
def stretch (pmin pmax x : ℕ) : ℕ :=
  u8_of_float (255 * ((x : ℚ) - pmin) / ((pmax : ℚ) - pmin))

/-- The saturate branch of save_png (source lines 176-182): cast to float32,
rescale when the global max exceeds the global min, cast back to uint8; the
two casts alone are the identity on 8-bit data. -/
def saturate_step (palette : List RGB) : List RGB :=
  if pal_min palette < pal_max palette then
    palette.map (fun t => (stretch (pal_min palette) (pal_max palette) t.1,
      stretch (pal_min palette) (pal_max palette) t.2.1,
      stretch (pal_min palette) (pal_max palette) t.2.2))
  else palette

/-- The white_bg branch of save_png (source lines 184-186): set index 0 of a
copy to pure white. -/
def white_bg_step (palette : List RGB) : List RGB := palette.set 0 (255, 255, 255)

/-- The palette post-processing of save_png (source lines 173-189): the
saturate step first, then the white background step. -/
def save_png_palette (sat wb : Bool) (palette : List RGB) : List RGB :=
  let p1 := if sat then saturate_step palette else palette
  if wb then white_bg_step p1 else p1

/-- The saturate step keeps a non-empty palette non-empty. -/
theorem saturate_step_ne_nil (p : List RGB) (hne : p ≠ []) : saturate_step p ≠ [] := by
  unfold saturate_step
  split
  · simpa using hne
  · exact hne

/-- Claim C9: save_png applies the saturate step first, a linear rescale over
all palette entries and channels sending the global min to 0 and the global
max to 255 and skipped when they are equal, and then, when white_bg is set,
forces index 0 to pure white without changing any other index; the example
palette [(10,10,10),(200,200,200)] saturates to [(0,0,0),(255,255,255)]. -/
theorem C9_palette_post (sat : Bool) (p q r : List RGB)
    (hne : p ≠ []) (hq : pal_min q = pal_max q) (hr : pal_min r < pal_max r) :
    save_png_palette true false [(10, 10, 10), (200, 200, 200)] =
      [(0, 0, 0), (255, 255, 255)] ∧
    saturate_step q = q ∧
    (save_png_palette sat true p).getD 0 d0 = (255, 255, 255) ∧
    (save_png_palette sat true p).tail = (save_png_palette sat false p).tail ∧
    saturate_step r = r.map (fun t => (stretch (pal_min r) (pal_max r) t.1,
      stretch (pal_min r) (pal_max r) t.2.1, stretch (pal_min r) (pal_max r) t.2.2)) ∧
    stretch (pal_min r) (pal_max r) (pal_min r) = 0 ∧
    stretch (pal_min r) (pal_max r) (pal_max r) = 255 := by
  have hcast : (pal_min r : ℚ) < (pal_max r : ℚ) := by exact_mod_cast hr
  have hd : (pal_max r : ℚ) - (pal_min r : ℚ) ≠ 0 := ne_of_gt (sub_pos.mpr hcast)
  have hmin10 : pal_min [((10, 10, 10) : RGB), (200, 200, 200)] = 10 := by decide
  have hmax200 : pal_max [((10, 10, 10) : RGB), (200, 200, 200)] = 200 := by decide
  have hs1 : stretch 10 200 10 = 0 := by norm_num [stretch, u8_of_float]
  have hs2 : stretch 10 200 200 = 255 := by
    norm_num [stretch, u8_of_float]
    decide
  have hex : save_png_palette true false [(10, 10, 10), (200, 200, 200)] =
      [(0, 0, 0), (255, 255, 255)] := by
    show saturate_step [(10, 10, 10), (200, 200, 200)] = [(0, 0, 0), (255, 255, 255)]
    unfold saturate_step
    rw [hmin10, hmax200, if_pos (by norm_num)]
    simp only [List.map_cons, List.map_nil]
    rw [hs1, hs2]
  refine ⟨hex, ?_, ?_, ?_, ?_, ?_, ?_⟩
  · unfold saturate_step
    rw [if_neg (by omega)]
  · have hp1 : (if sat then saturate_step p else p) ≠ [] := by
      cases sat
      · simpa using hne
      · simpa using saturate_step_ne_nil p hne
    show (white_bg_step (if sat then saturate_step p else p)).getD 0 d0 = _
    rcases h1 : (if sat then saturate_step p else p) with _ | ⟨c, cs⟩
    · exact absurd h1 hp1
    · rw [white_bg_step, List.set_cons_zero]
      rfl
  · show (white_bg_step (if sat then saturate_step p else p)).tail =
      (if sat then saturate_step p else p).tail
    rcases (if sat then saturate_step p else p) with _ | ⟨c, cs⟩
    · rfl
    · rw [white_bg_step, List.set_cons_zero]
      rfl
  · unfold saturate_step
    rw [if_pos hr]
  · show u8_of_float (255 * ((pal_min r : ℚ) - pal_min r) / ((pal_max r : ℚ) - pal_min r)) = 0
    rw [sub_self, mul_zero, zero_div]
    rfl
  · show u8_of_float (255 * ((pal_max r : ℚ) - pal_min r) / ((pal_max r : ℚ) - pal_min r)) = 255
    rw [mul_div_assoc, div_self hd, mul_one]
    rfl

/-- Claim C9 witness: sat on, the example palette, a constant palette for the
skip case, and the example palette again for the stretch case. -/
theorem C9_palette_post_witness :
    save_png_palette true false [(10, 10, 10), (200, 200, 200)] =
      [(0, 0, 0), (255, 255, 255)] ∧
    saturate_step [((5, 5, 5) : RGB)] = [((5, 5, 5) : RGB)] ∧
    (save_png_palette true true [(10, 10, 10), (200, 200, 200)]).getD 0 d0 =
      (255, 255, 255) ∧
    (save_png_palette true true [(10, 10, 10), (200, 200, 200)]).tail =
      (save_png_palette true false [(10, 10, 10), (200, 200, 200)]).tail ∧
    saturate_step [((10, 10, 10) : RGB), (200, 200, 200)] =
      ([((10, 10, 10) : RGB), (200, 200, 200)] : List RGB).map (fun t =>
        (stretch (pal_min [((10, 10, 10) : RGB), (200, 200, 200)])
          (pal_max [((10, 10, 10) : RGB), (200, 200, 200)]) t.1,
         stretch (pal_min [((10, 10, 10) : RGB), (200, 200, 200)])
          (pal_max [((10, 10, 10) : RGB), (200, 200, 200)]) t.2.1,
         stretch (pal_min [((10, 10, 10) : RGB), (200, 200, 200)])
          (pal_max [((10, 10, 10) : RGB), (200, 200, 200)]) t.2.2)) ∧
    stretch (pal_min [((10, 10, 10) : RGB), (200, 200, 200)])
        (pal_max [((10, 10, 10) : RGB), (200, 200, 200)])
        (pal_min [((10, 10, 10) : RGB), (200, 200, 200)]) = 0 ∧
    stretch (pal_min [((10, 10, 10) : RGB), (200, 200, 200)])
        (pal_max [((10, 10, 10) : RGB), (200, 200, 200)])
        (pal_max [((10, 10, 10) : RGB), (200, 200, 200)]) = 255 :=
  C9_palette_post true [(10, 10, 10), (200, 200, 200)] [((5, 5, 5) : RGB)]
    [(10, 10, 10), (200, 200, 200)] (by simp) (by decide) (by decide)

/-- A numpy array binding, tracking whether it still aliases the array owned
by the caller of save_png. -/
structure NpBuf where
  aliased : Bool
  data : List RGB

/-- astype allocates a fresh array holding the converted data. -/
def np_astype (a : NpBuf) (f : List RGB → List RGB) : NpBuf := ⟨false, f a.data⟩

/-- copy allocates a fresh array with the same data. -/
def np_copy (a : NpBuf) : NpBuf := ⟨false, a.data⟩

/-- An element store: updates the bound array and, when that binding still
aliases the array owned by the caller, the caller data too. -/
def np_setitem (a : NpBuf) (caller : List RGB) (i : ℕ) (v : RGB) : NpBuf × List RGB :=
  (⟨a.aliased, a.data.set i v⟩, if a.aliased then a.data.set i v else caller)

/-- The palette handling of save_png with numpy aliasing made explicit
(source lines 173-190): the parameter binding initially aliases the array
owned by the caller; the saturate branch rebinds through astype conversions,
which allocate; the white_bg branch copies before its single element store.
Returns the palette used for output together with the data of the array owned
by the caller after the call. -/
def save_png_trace (sat wb : Bool) (caller : List RGB) : List RGB × List RGB :=
  let palette0 : NpBuf := ⟨true, caller⟩
  let palette1 := if sat then np_astype palette0 saturate_step else palette0
  if wb then
    let res := np_setitem (np_copy palette1) caller 0 (255, 255, 255)
    (res.1.data, res.2)
  else
    (palette1.data, caller)

/-- Claim C10: save_png never mutates the palette array passed in by the
caller — the saturate branch rebinds to freshly converted arrays and the
white_bg branch copies before writing index 0 — so for every flag combination
the array owned by the caller holds the same data after the call, while the
palette actually written out is the post-processed one. -/
theorem C10_save_png_no_mutation (sat wb : Bool) (caller : List RGB) :
    (save_png_trace sat wb caller).2 = caller ∧
    (save_png_trace sat wb caller).1 = save_png_palette sat wb caller := by
  cases sat <;> cases wb <;>
    simp [save_png_trace, save_png_palette, np_astype, np_copy, np_setitem, white_bg_step]

end Noteshrink
